import Mathlib

/-!
Verification development for the RAG support core of the
`chatbot-streamlit-RAG` repository.

The embedding below translates the algorithmic core of the repository
into Lean definitions:

* `src/document_processor.py` — `DocumentProcessor.chunk_text` (the
  external LangChain recursive splitter is abstracted as an explicit
  function parameter, since its code is not part of the repository);
* `src/rag_chatbot_app.py` — the duplicate-filtering block of the
  upload path (lines 825–869) and the RAG query dispatch building
  `sources_used` (lines 1204–1224);
* `src/vector_database.py` — `add_documents`, the result formatting of
  `similarity_search`, and `get_relevant_context`.

External effectful components (the ChromaDB store, the sentence
embedder) enter the model as explicit data: a query's raw response is a
value of `QueryResponse`, the persisted collection is a `List Entry`,
and the SHA-1 digest is an arbitrary function parameter
`h : String → String` (every theorem proved about the filter holds for
every digest function, in particular for SHA-1).  Python floats
(similarity distances) are never computed with — only carried through —
so they are modelled by `Int` (the literal `0.0` becomes `0`).
-/

/-- Python `str.strip()` removes this whitespace set from both ends
(ASCII portion; the code never feeds the exotic Unicode space
characters into `strip`). -/
def isPyWhitespace (c : Char) : Bool :=
  c == ' ' || c == '\t' || c == '\n' || c == '\r' || c == '\x0b' || c == '\x0c'

/-- Strip leading and trailing whitespace from a character list. -/
def stripChars (l : List Char) : List Char :=
  ((l.dropWhile isPyWhitespace).reverse.dropWhile isPyWhitespace).reverse

/-- Model of Python `s.strip()`. -/
def pyStrip (s : String) : String := String.mk (stripChars s.data)

/-- Metadata dictionaries (Python `dict`) are modelled as association
lists; values are stringified (Python stores ints such as
`chunk_index`, but every use in the modelled code formats them into
strings). -/
abbrev MetaMap := List (String × String)

/-- Python `m.get(k)` returning `None` when missing. -/
def metaLookup (m : MetaMap) (k : String) : Option String := m.lookup k

/-- Python `m.get(k, dflt)`. -/
def metaGet (m : MetaMap) (k dflt : String) : String :=
  match metaLookup m k with
  | some v => v
  | none => dflt

/-- Python `m[k] = v` (dict update). -/
def metaInsert (m : MetaMap) (k v : String) : MetaMap :=
  (k, v) :: m.eraseP (fun p => p.fst == k)

/-- A LangChain document: `page_content` plus a metadata dict
(`src/document_processor.py`, `chunk_text`). -/
structure Doc where
  page_content : String
  metadata : MetaMap
deriving DecidableEq

/-- An entry stored in the ChromaDB collection: the document text and
its metadata (`VectorDatabase.add_documents` stores
`documents=texts, metadatas=metadatas`; the generated UUID ids and the
embedding vectors are produced by external components and are not
inspected by any modelled code path, so they are omitted). -/
structure Entry where
  text : String
  metadata : MetaMap
deriving DecidableEq

/-! ### Chunker — `DocumentProcessor.chunk_text` (document_processor.py 109–140)

The `RecursiveCharacterTextSplitter` is LangChain library code, not
part of this repository; it is abstracted as the function parameter
`split`, applied to the processor's `chunk_size`, `chunk_overlap` and
the input text exactly as `self.text_splitter.split_text(text)` is. -/

/-- Model of `DocumentProcessor.chunk_text`: empty/whitespace-only text
gives `[]`; otherwise each split chunk is wrapped in a document whose
metadata is the caller's metadata updated with `chunk_index` and
`chunk_size`. -/
def chunkText (split : Nat → Nat → String → List String)
    (chunkSize chunkOverlap : Nat) (metadata : MetaMap) (text : String) : List Doc :=
  if (pyStrip text).data.isEmpty then []
  else
    (split chunkSize chunkOverlap text).enum.map (fun p =>
      { page_content := p.snd
        metadata := metaInsert (metaInsert metadata "chunk_index" (toString p.fst))
          "chunk_size" (toString p.snd.length) })

/-! ### Duplicate filter — rag_chatbot_app.py lines 825–873 -/

/-- The content hash of a chunk: the digest `h` (SHA-1 in the source)
applied to the stripped text, mirroring
`_hashlib.sha1(text_for_hash.encode(...)).hexdigest()` where
`text_for_hash = (content or '').strip()`. -/
def hashOf (h : String → String) (content : String) : String := h (pyStrip content)

/-- Mirror of `meta_attr['chunk_hash'] = h` before appending a kept
document to `unique_docs`. -/
def attachHash (h : String → String) (d : Doc) : Doc :=
  { d with metadata := metaInsert d.metadata "chunk_hash" (hashOf h d.page_content) }

/-- State of the filtering loop: `session` is
`st.session_state.chunk_hashes` (a set, modelled as the list of hashes
added), `uniqueDocs` is `unique_docs`, `skipped` is `skipped`. -/
structure FilterAcc where
  session : List String
  uniqueDocs : List Doc
  skipped : Nat
deriving DecidableEq

/-- One iteration of the `for d in documents:` filtering loop
(rag_chatbot_app.py 846–869). -/
def filterStep (h : String → String) (existing : List String)
    (acc : FilterAcc) (d : Doc) : FilterAcc :=
  if (pyStrip d.page_content).data.isEmpty then acc
  else
    let hv := hashOf h d.page_content
    if acc.session.contains hv || existing.contains hv then
      { acc with skipped := acc.skipped + 1 }
    else
      { session := hv :: acc.session
        uniqueDocs := acc.uniqueDocs ++ [attachHash h d]
        skipped := acc.skipped }

/-- The whole filtering loop over one upload batch, starting from the
current session hash set (with `unique_docs = []`, `skipped = 0`). -/
def filterDocs (h : String → String) (existing session : List String)
    (docs : List Doc) : FilterAcc :=
  docs.foldl (filterStep h existing) ⟨session, [], 0⟩

/-! ### Vector store write path — `VectorDatabase.add_documents`
(vector_database.py 108–144) -/

/-- Model of `add_documents`: empty input warns and returns `False`
without touching the store; otherwise the documents' texts and
metadatas are appended to the collection and `True` is returned.  (The
`except` branch — a storage/embedding failure returning `False` with
nothing committed — is an external fault and is not triggered in the
modelled executions.) -/
def addDocuments (docs : List Doc) (entries : List Entry) : Bool × List Entry :=
  if docs.isEmpty then (false, entries)
  else (true, entries ++ docs.map (fun d => ⟨d.page_content, d.metadata⟩))

/-- The cap of the metadata scan:
`collection.get(include=["metadatas"], limit=100000)`. -/
def scanLimit : Nat := 100000

/-- Mirror of the `existing_hashes` construction (rag_chatbot_app.py
832–844): read at most `scanLimit` stored metadatas and collect the
truthy `chunk_hash` values. -/
def scanHashes (entries : List Entry) : List String :=
  (entries.take scanLimit).filterMap (fun e =>
    match metaLookup e.metadata "chunk_hash" with
    | some hv => if hv.data.isEmpty then none else some hv
    | none => none)

/-- Process-level state: the in-memory session hash set plus the
persisted collection. -/
structure AppState where
  session : List String
  entries : List Entry

/-- One upload batch (rag_chatbot_app.py 825–873): scan existing
hashes, filter the batch, and — only when `unique_docs` is nonempty —
call `add_documents`.  Returns the new state and the `skipped` count. -/
def processBatch (h : String → String) (s : AppState) (docs : List Doc) :
    AppState × Nat :=
  let acc := filterDocs h (scanHashes s.entries) s.session docs
  let entries2 := if acc.uniqueDocs.isEmpty then s.entries
    else (addDocuments acc.uniqueDocs s.entries).snd
  (⟨acc.session, entries2⟩, acc.skipped)

/-- An event in the life of one collection: an upload batch, or a
process restart (which clears the in-memory session set but keeps the
persisted collection). -/
inductive UploadEvent where
  | batch (docs : List Doc)
  | restart
deriving DecidableEq

/-- Transition of the application state under one event. -/
def stepEvent (h : String → String) (s : AppState) : UploadEvent → AppState
  | .batch docs => (processBatch h s docs).fst
  | .restart => ⟨[], s.entries⟩

/-- Fresh deployment: empty session set, empty collection. -/
def initAppState : AppState := ⟨[], []⟩

/-- Run a sequence of events from a given state. -/
def runFrom (h : String → String) (s : AppState) (evs : List UploadEvent) : AppState :=
  evs.foldl (stepEvent h) s

/-- Run a sequence of events from the fresh deployment. -/
def runEvents (h : String → String) (evs : List UploadEvent) : AppState :=
  runFrom h initAppState evs

/-! ### Read path — `similarity_search` result formatting and
`get_relevant_context` (vector_database.py 146–235) -/

/-- A formatted search result (`{"document": ..., "metadata": ...,
"distance": ...}`). -/
structure SearchResult where
  document : String
  metadata : MetaMap
  distance : Int
deriving DecidableEq

/-- The per-query slice of a raw ChromaDB query response
(`results["documents"][0]`, `results["metadatas"][0]`,
`results["distances"][0]`); lists are aligned when nonempty. -/
structure QueryResponse where
  documents : List String
  metadatas : List MetaMap
  distances : List Int
deriving DecidableEq

/-- The result-formatting loop of `similarity_search`
(vector_database.py 173–183): when the documents list is falsy nothing
is returned; otherwise per index the metadata defaults to `{}` and the
distance to `0.0` when the corresponding response list is falsy. -/
def formatResults (resp : QueryResponse) : List SearchResult :=
  if resp.documents.isEmpty then []
  else
    (List.range resp.documents.length).map (fun i =>
      { document := resp.documents.getD i ""
        metadata := if resp.metadatas.isEmpty then [] else resp.metadatas.getD i []
        distance := if resp.distances.isEmpty then 0 else resp.distances.getD i 0 })

/-- `chunk_info = f"[Document: {source}, Chunk {metadata.get('chunk_index', 'N/A')}]"`
with `source = metadata.get("source", "Unknown")`. -/
def chunkInfoStr (m : MetaMap) : String :=
  "[Document: " ++ metaGet m "source" "Unknown" ++ ", Chunk "
    ++ metaGet m "chunk_index" "N/A" ++ "]"

/-- `entry = f"{chunk_info}\n{document}\n"`. -/
def entryString (r : SearchResult) : String :=
  chunkInfoStr r.metadata ++ "\n" ++ r.document ++ "\n"

/-- The context-accumulation loop (vector_database.py 212–228): append
each entry unless adding it would exceed `maxLen` while at least one
part has already been appended (in which case the loop breaks). -/
def collectParts (maxLen : Nat) : List SearchResult → List String → Nat → List String
  | [], parts, _ => parts
  | r :: rs, parts, cur =>
    let entry := entryString r
    if cur + entry.length > maxLen && !parts.isEmpty then parts
    else collectParts maxLen rs (parts ++ [entry]) (cur + entry.length)

/-- The same loop instrumented to return the search results whose
blocks were appended, in order (one block per result). -/
def includedResults (maxLen : Nat) : List SearchResult → List SearchResult → Nat → List SearchResult
  | [], acc, _ => acc
  | r :: rs, acc, cur =>
    let entry := entryString r
    if cur + entry.length > maxLen && !acc.isEmpty then acc
    else includedResults maxLen rs (acc ++ [r]) (cur + entry.length)

/-- Python `context[:n]`. -/
def truncateStr (s : String) (n : Nat) : String := String.mk (s.data.take n)

/-- Model of `get_relevant_context` (vector_database.py 189–235) on the
formatted results of its internal `similarity_search` call: sentinel on
zero results, otherwise the parts joined with `"\n---\n"`, hard-truncated
with a `"..."` marker whenever the joined string exceeds `maxLen`. -/
def getRelevantContext (results : List SearchResult) (maxLen : Nat) : String :=
  if results.isEmpty then "No relevant documents found."
  else
    let context := String.intercalate "\n---\n" (collectParts maxLen results [] 0)
    if context.length > maxLen then truncateStr context maxLen ++ "..." else context

/-- One `sources_used` entry built by the RAG dispatch
(rag_chatbot_app.py 1215–1221): source, chunk index, distance, and the
full document text as preview. -/
def mkSourceEntry (r : SearchResult) : String × String × Int × String :=
  (metaGet r.metadata "source" "Unknown", metaGet r.metadata "chunk_index" "N/A",
    r.distance, r.document)

/-- `sources_used` as built from the search results. -/
def sourcesUsed (results : List SearchResult) : List (String × String × Int × String) :=
  results.map mkSourceEntry

/-- The dispatch (rag_chatbot_app.py 1204–1224): `sources_used` stays
`[]` when the similarity search returns no results. -/
def dispatchSources (searchResults : List SearchResult) :
    List (String × String × Int × String) :=
  if searchResults.isEmpty then [] else sourcesUsed searchResults

/-! ## Claims -/

/-- **C5** (counterexample): the claim says `add_documents([])` is a
no-op that *reports success*; in the code it returns `False` (after the
`"No documents to add"` warning), here evaluated on the empty store. -/
theorem c5_counterexample : addDocuments ([] : List Doc) ([] : List Entry) = (false, []) :=
  rfl

/-- **C5** (amended): on the empty list of chunks, `add_documents` is a
no-op that inserts zero chunks and leaves the store untouched, but it
reports *failure* (`False`), not success. -/
theorem c5_theorem (entries : List Entry) : addDocuments [] entries = (false, entries) :=
  rfl

/-- **C7**: chunk determinism — two calls of the chunker with identical
splitter, chunk size, overlap, metadata and text yield identical output
sequences (same chunk texts and same merged metadata).  The embedding
is pure, mirroring the source path, which keeps no mutable state and
uses no randomness. -/
theorem c7_theorem (split : Nat → Nat → String → List String)
    (cs co : Nat) (m : MetaMap) (t1 t2 : String) (ht : t1 = t2) :
    chunkText split cs co m t1 = chunkText split cs co m t2 ∧
    (chunkText split cs co m t1).map Doc.page_content
      = (chunkText split cs co m t2).map Doc.page_content ∧
    (chunkText split cs co m t1).map Doc.metadata
      = (chunkText split cs co m t2).map Doc.metadata := by
  subst ht
  exact ⟨rfl, rfl, rfl⟩

/-- Witness for C7 at a concrete splitter and text. -/
theorem c7_witness :
    chunkText (fun _ _ s => [s]) 1000 200 [] "hello"
      = chunkText (fun _ _ s => [s]) 1000 200 [] "hello" ∧
    (chunkText (fun _ _ s => [s]) 1000 200 [] "hello").map Doc.page_content
      = (chunkText (fun _ _ s => [s]) 1000 200 [] "hello").map Doc.page_content ∧
    (chunkText (fun _ _ s => [s]) 1000 200 [] "hello").map Doc.metadata
      = (chunkText (fun _ _ s => [s]) 1000 200 [] "hello").map Doc.metadata :=
  c7_theorem (fun _ _ s => [s]) 1000 200 [] "hello" "hello" rfl

/-! ### Helper lemmas for the context assembler -/

/-- Length of a string append is the sum of the lengths. -/
theorem strLength_append (a b : String) : (a ++ b).length = a.length + b.length := by
  cases a with
  | mk da =>
    cases b with
    | mk db =>
      show (da ++ db).length = da.length + db.length
      exact List.length_append da db

/-- The length of a truncated string. -/
theorem truncateStr_length (s : String) (n : Nat) :
    (truncateStr s n).length = min n s.length := by
  show (s.data.take n).length = min n s.data.length
  exact List.length_take n s.data

/-- The accumulation loop, viewed through the instrumented variant:
collected parts are the entry strings of the included results. -/
theorem collectParts_eq_included (maxLen : Nat) :
    ∀ (l : List SearchResult) (acc : List SearchResult) (cur : Nat),
      collectParts maxLen l (acc.map entryString) cur
        = (includedResults maxLen l acc cur).map entryString := by
  intro l
  induction l with
  | nil => intro acc cur; rfl
  | cons r rs ih =>
    intro acc cur
    have hmap : (acc.map entryString).isEmpty = acc.isEmpty := by
      cases acc <;> rfl
    rw [collectParts, includedResults, hmap]
    by_cases hb : (cur + (entryString r).length > maxLen && !acc.isEmpty) = true
    · rw [if_pos hb, if_pos hb]
    · rw [if_neg hb, if_neg hb]
      have hstep : acc.map entryString ++ [entryString r]
          = (acc ++ [r]).map entryString := by
        simp
      rw [hstep, ih]

/-- The included results form a prefix of the ranked result list. -/
theorem includedResults_prefix (maxLen : Nat) :
    ∀ (l : List SearchResult) (acc : List SearchResult) (cur : Nat),
      ∃ p q, includedResults maxLen l acc cur = acc ++ p ∧ p ++ q = l := by
  intro l
  induction l with
  | nil =>
    intro acc cur
    exact ⟨[], [], by rw [includedResults, List.append_nil], rfl⟩
  | cons r rs ih =>
    intro acc cur
    rw [includedResults]
    by_cases hb : (cur + (entryString r).length > maxLen && !acc.isEmpty) = true
    · rw [if_pos hb]
      exact ⟨[], r :: rs, by rw [List.append_nil], rfl⟩
    · rw [if_neg hb]
      obtain ⟨p, q, h1, h2⟩ := ih (acc ++ [r]) (cur + (entryString r).length)
      refine ⟨r :: p, q, ?_, ?_⟩
      · rw [h1, List.append_assoc, List.singleton_append]
      · rw [List.cons_append, h2]

/-! ### Claim C3 — context length bound -/

/-- Concrete search results used by the counterexamples: each formats
to a 26-character block `"[Document: s, Chunk 0]\n..\n"`. -/
def r1ex : SearchResult := ⟨"dd", [("source", "s"), ("chunk_index", "0")], 0⟩

/-- Second concrete search result, distinct text, same 26-character
block length. -/
def r2ex : SearchResult := ⟨"ee", [("source", "s"), ("chunk_index", "0")], 0⟩

/-- **C3** (counterexample): with `max_context_length = 55` and two
results whose blocks are 26 characters each, both blocks are appended
(the loop counts `26 + 26 = 52 ≤ 55`), but the `"\n---\n"` join
separator is never counted, so the joined string has 57 characters and
is hard-truncated: the returned context has 58 characters `> 55`, even
though the top-1 block alone (26 characters) does *not* exceed the
bound — refuting the claim that the single-oversized-top-block case is
the only way the bound can be exceeded. -/
theorem c3_counterexample :
    55 < (getRelevantContext [r1ex, r2ex] 55).length ∧ (entryString r1ex).length ≤ 55 := by
  decide

/-- **C3** (amended): for every nonempty result list the context string
returned by `get_relevant_context` has length at most
`max_context_length + 3`: whenever the joined string exceeds
`max_context_length` — which happens not only when the top-1 block
alone exceeds it but also when the uncounted `"\n---\n"` separators
push the total over it — the string is hard-truncated to exactly
`max_context_length` characters plus the 3-character `"..."` marker. -/
theorem c3_theorem (results : List SearchResult) (maxLen : Nat) (hne : results ≠ []) :
    (getRelevantContext results maxLen).length ≤ maxLen + 3 := by
  have hie : results.isEmpty = false := by
    cases results with
    | nil => exact absurd rfl hne
    | cons a l => rfl
  rw [getRelevantContext, hie]
  simp only [Bool.false_eq_true, if_false]
  by_cases hgt :
      (String.intercalate "\n---\n" (collectParts maxLen results [] 0)).length > maxLen
  · rw [if_pos hgt, strLength_append, truncateStr_length]
    have hmin : min maxLen
        (String.intercalate "\n---\n" (collectParts maxLen results [] 0)).length
        = maxLen := Nat.min_eq_left (Nat.le_of_lt hgt)
    rw [hmin]
    have h3 : ("..." : String).length = 3 := rfl
    rw [h3]
  · rw [if_neg hgt]
    exact Nat.le_trans (Nat.le_of_not_lt hgt) (Nat.le_add_right maxLen 3)

/-- Witness for C3 at a concrete nonempty result list. -/
theorem c3_witness : (getRelevantContext [r1ex] 10).length ≤ 10 + 3 :=
  c3_theorem [r1ex] 10 (by simp)

/-! ### Claim C4 — sources/context correspondence -/

/-- **C4** (counterexample): with `max_context_length = 26`, only the
first of the two results fits into the context string, but the caller
builds `sources_used` from *all* search results — the sources list (two
entries) is not the per-included-block list (one entry). -/
theorem c4_counterexample :
    dispatchSources [r1ex, r2ex]
      ≠ (includedResults 26 [r1ex, r2ex] [] 0).map mkSourceEntry := by
  decide

/-- **C4** (amended): `sources_used` contains exactly one
(source, chunk_index, distance, text) entry per *search result returned
by the similarity search* (not per included block), in ranked order;
the blocks actually included in the context string correspond to a
prefix of it (same order), so sources is a supersequence of the
citation list the claim describes: results dropped by the length bound
still appear in `sources_used`. -/
theorem c4_theorem (results : List SearchResult) (maxLen : Nat) :
    (sourcesUsed results).length = results.length ∧
    collectParts maxLen results [] 0 = (includedResults maxLen results [] 0).map entryString ∧
    ∃ rest, (includedResults maxLen results [] 0).map mkSourceEntry ++ rest
      = sourcesUsed results := by
  refine ⟨List.length_map _ _, ?_, ?_⟩
  · have h := collectParts_eq_included maxLen results [] 0
    exact h
  · obtain ⟨p, q, h1, h2⟩ := includedResults_prefix maxLen results [] 0
    rw [List.nil_append] at h1
    refine ⟨q.map mkSourceEntry, ?_⟩
    rw [h1, ← List.map_append, h2]
    rfl

/-! ### Claim C6 — zero-result sentinel -/

/-- **C6**: when the similarity search returns zero results (for
example against a freshly cleared collection, whose raw query response
carries an empty documents list), `get_relevant_context` returns the
sentinel `"No relevant documents found."` and the caller's
`sources_used` list stays empty; no error is raised (the functions are
total here). -/
theorem c6_theorem (resp : QueryResponse) (maxLen : Nat) (hd : resp.documents = []) :
    formatResults resp = [] ∧
    getRelevantContext (formatResults resp) maxLen = "No relevant documents found." ∧
    dispatchSources (formatResults resp) = [] := by
  have h1 : formatResults resp = [] := by
    rw [formatResults, hd]
    rfl
  refine ⟨h1, ?_, ?_⟩ <;> rw [h1] <;> rfl

/-- Witness for C6 at the empty raw response. -/
theorem c6_witness :
    formatResults ⟨[], [], []⟩ = [] ∧
    getRelevantContext (formatResults ⟨[], [], []⟩) 2000 = "No relevant documents found." ∧
    dispatchSources (formatResults ⟨[], [], []⟩) = [] :=
  c6_theorem ⟨[], [], []⟩ 2000 rfl

/-! ### Claim C10 — totality on missing result fields -/

/-- **C10**: when the raw query response carries no metadatas (resp. no
distances), every formatted search result gets the default metadata
`{}` (resp. distance `0.0`); and a result whose metadata lacks the
`source` and `chunk_index` keys still formats to a well-formed block
with the `"Unknown"` and `"N/A"` fallbacks. -/
theorem c10_theorem :
    (∀ (resp : QueryResponse) (r : SearchResult), r ∈ formatResults resp →
        resp.metadatas = [] → r.metadata = []) ∧
    (∀ (resp : QueryResponse) (r : SearchResult), r ∈ formatResults resp →
        resp.distances = [] → r.distance = 0) ∧
    (∀ r : SearchResult, metaLookup r.metadata "source" = none →
        metaLookup r.metadata "chunk_index" = none →
        entryString r = "[Document: Unknown, Chunk N/A]\n" ++ r.document ++ "\n") := by
  refine ⟨?_, ?_, ?_⟩
  · intro resp r hr hm
    rw [formatResults] at hr
    by_cases hie : resp.documents.isEmpty = true
    · rw [if_pos hie] at hr
      exact absurd hr (List.not_mem_nil r)
    · rw [if_neg hie] at hr
      obtain ⟨i, _, rfl⟩ := List.mem_map.mp hr
      simp [hm]
  · intro resp r hr hdist
    rw [formatResults] at hr
    by_cases hie : resp.documents.isEmpty = true
    · rw [if_pos hie] at hr
      exact absurd hr (List.not_mem_nil r)
    · rw [if_neg hie] at hr
      obtain ⟨i, _, rfl⟩ := List.mem_map.mp hr
      simp [hdist]
  · intro r h1 h2
    have e1 : metaGet r.metadata "source" "Unknown" = "Unknown" := by
      rw [metaGet, h1]
    have e2 : metaGet r.metadata "chunk_index" "N/A" = "N/A" := by
      rw [metaGet, h2]
    rw [entryString, chunkInfoStr, e1, e2]
    rw [show ("[Document: " ++ "Unknown" ++ ", Chunk " ++ "N/A" ++ "]" ++ "\n" : String)
      = "[Document: Unknown, Chunk N/A]\n" from rfl]

/-- Witness for C10: a response with a document but empty metadatas and
distances lists yields the defaulted result, and its block uses the
fallback labels. -/
theorem c10_witness :
    (⟨"d", [], 0⟩ : SearchResult).metadata = [] ∧
    (⟨"d", [], 0⟩ : SearchResult).distance = 0 ∧
    entryString ⟨"d", [], 0⟩ = "[Document: Unknown, Chunk N/A]\n" ++ "d" ++ "\n" := by
  have hmem : (⟨"d", [], 0⟩ : SearchResult) ∈ formatResults ⟨["d"], [], []⟩ := by
    rw [show formatResults ⟨["d"], [], []⟩ = [⟨"d", [], 0⟩] from rfl]
    exact List.mem_singleton.mpr rfl
  exact ⟨c10_theorem.1 ⟨["d"], [], []⟩ _ hmem rfl,
    c10_theorem.2.1 ⟨["d"], [], []⟩ _ hmem rfl,
    c10_theorem.2.2 ⟨"d", [], 0⟩ rfl rfl⟩

/-! ### Helper lemmas for the duplicate filter -/

/-- Python `in` on a set, when the element is absent. -/
theorem contains_eq_false_of_not_mem {l : List String} {a : String} (h : a ∉ l) :
    l.contains a = false := by
  simp [List.contains]
  exact h

/-- Python `in` on a set, when the element is present. -/
theorem contains_eq_true_of_mem {l : List String} {a : String} (h : a ∈ l) :
    l.contains a = true := by
  simp [List.contains]
  exact h

/-- The content hash the filter assigns to a document. -/
def docHash (h : String → String) (d : Doc) : String := hashOf h d.page_content

/-- Attaching the hash does not change the text, hence not the hash. -/
theorem docHash_attachHash (h : String → String) (d : Doc) :
    docHash h (attachHash h d) = docHash h d := rfl

/-- Looking up `chunk_hash` after attaching it yields the attached hash. -/
theorem metaLookup_attachHash (h : String → String) (d : Doc) :
    metaLookup (attachHash h d).metadata "chunk_hash" = some (docHash h d) := by
  simp [attachHash, metaInsert, metaLookup, List.lookup, docHash, hashOf]

/-- Invariant of the filtering-loop accumulator relative to the scanned
`existing` hash set: every kept document carries its own content hash in
its metadata and has nonempty stripped text; the kept hashes are
pairwise distinct, disjoint from `existing`, and recorded in the
session set. -/
def AccInv (h : String → String) (existing : List String) (acc : FilterAcc) : Prop :=
  (∀ d ∈ acc.uniqueDocs,
      metaLookup d.metadata "chunk_hash" = some (docHash h d) ∧
      (pyStrip d.page_content).data.isEmpty = false) ∧
  (acc.uniqueDocs.map (docHash h)).Nodup ∧
  (∀ d ∈ acc.uniqueDocs, docHash h d ∉ existing) ∧
  (∀ d ∈ acc.uniqueDocs, docHash h d ∈ acc.session)

/-- One filtering iteration preserves the accumulator invariant. -/
theorem filterStep_inv (h : String → String) (existing : List String)
    (acc : FilterAcc) (d : Doc) (hinv : AccInv h existing acc) :
    AccInv h existing (filterStep h existing acc d) := by
  obtain ⟨hmeta, hnd, hex, hsess⟩ := hinv
  rw [filterStep]
  by_cases hemp : (pyStrip d.page_content).data.isEmpty = true
  · rw [if_pos hemp]
    exact ⟨hmeta, hnd, hex, hsess⟩
  · rw [if_neg hemp]
    by_cases hdup :
        (acc.session.contains (hashOf h d.page_content)
          || existing.contains (hashOf h d.page_content)) = true
    · rw [if_pos hdup]
      exact ⟨hmeta, hnd, hex, hsess⟩
    · rw [if_neg hdup]
      have hnotor := hdup
      rw [Bool.or_eq_true, not_or] at hnotor
      obtain ⟨hns, hne⟩ := hnotor
      have hnsess : hashOf h d.page_content ∉ acc.session := by
        intro hmem
        exact hns (contains_eq_true_of_mem hmem)
      have hnexist : hashOf h d.page_content ∉ existing := by
        intro hmem
        exact hne (contains_eq_true_of_mem hmem)
      refine ⟨?_, ?_, ?_, ?_⟩
      · intro d' hd'
        rcases List.mem_append.mp hd' with hold | hnew
        · exact hmeta d' hold
        · rcases List.mem_singleton.mp hnew with rfl
          exact ⟨metaLookup_attachHash h d, by simpa [attachHash] using hemp⟩
      · rw [List.map_append, List.nodup_append]
        refine ⟨hnd, List.nodup_singleton _, ?_⟩
        intro v hv hv'
        obtain ⟨d', hd', rfl⟩ := List.mem_map.mp hv
        have heq2 : docHash h d' = docHash h d := by
          rw [List.map_singleton, List.mem_singleton] at hv'
          rw [hv', docHash_attachHash]
        have hmem2 : docHash h d ∈ acc.session := heq2 ▸ hsess d' hd'
        exact hnsess hmem2
      · intro d' hd'
        rcases List.mem_append.mp hd' with hold | hnew
        · exact hex d' hold
        · rcases List.mem_singleton.mp hnew with rfl
          exact hnexist
      · intro d' hd'
        rcases List.mem_append.mp hd' with hold | hnew
        · exact List.mem_cons_of_mem _ (hsess d' hold)
        · rcases List.mem_singleton.mp hnew with rfl
          exact List.mem_cons_self _ _

/-- The whole filtering loop preserves the accumulator invariant. -/
theorem filterFold_inv (h : String → String) (existing : List String) :
    ∀ (docs : List Doc) (acc : FilterAcc), AccInv h existing acc →
      AccInv h existing (List.foldl (filterStep h existing) acc docs) := by
  intro docs
  induction docs with
  | nil => intro acc hinv; exact hinv
  | cons d ds ih =>
    intro acc hinv
    rw [List.foldl_cons]
    exact ih _ (filterStep_inv h existing acc d hinv)

/-- The result of filtering one batch satisfies the invariant. -/
theorem filterDocs_inv (h : String → String) (existing session : List String)
    (docs : List Doc) : AccInv h existing (filterDocs h existing session docs) := by
  refine filterFold_inv h existing docs ⟨session, [], 0⟩ ?_
  refine ⟨?_, List.nodup_nil, ?_, ?_⟩ <;> intro d hd <;> exact absurd hd (List.not_mem_nil d)

/-! ### Claim C8 — empty-chunk handling in the duplicate filter -/

/-- **C8** (counterexample): a batch of two whitespace-only chunks is
filtered to the accumulator `⟨[], [], 0⟩` — both chunks are dropped,
the skipped-duplicates count stays `0`, and the filter's entire output
(kept documents, session set, skipped count) carries no component in
which the two dropped empty chunks are counted: the claimed separate
"empty" count does not exist in the code. -/
theorem c8_counterexample :
    filterDocs (fun s => s) [] []
      [⟨"  ", []⟩, ⟨"\n", []⟩] = ⟨[], [], 0⟩ := by
  decide

/-- **C8** (amended): chunks whose text is empty after trimming
whitespace are dropped unconditionally — such a chunk leaves the filter
state (kept documents, session hashes, skipped count) entirely
unchanged, so in particular it is not counted toward the
skipped-duplicates count; every kept document has nonempty stripped
text.  However, the code keeps no separate "empty" count: dropped empty
chunks are not tracked anywhere. -/
theorem c8_theorem :
    (∀ (h : String → String) (existing : List String) (acc : FilterAcc) (d : Doc),
        (pyStrip d.page_content).data.isEmpty = true → filterStep h existing acc d = acc) ∧
    (∀ (h : String → String) (existing session : List String) (docs : List Doc)
        (d : Doc), d ∈ (filterDocs h existing session docs).uniqueDocs →
        (pyStrip d.page_content).data.isEmpty = false) := by
  constructor
  · intro h existing acc d hemp
    rw [filterStep, if_pos hemp]
  · intro h existing session docs d hd
    exact ((filterDocs_inv h existing session docs).1 d hd).2

/-- Witness for C8: a whitespace-only chunk is a strict no-op for the
filter, and the kept document of a nonempty singleton batch has
nonempty stripped text. -/
theorem c8_witness :
    filterStep (fun s => s) [] ⟨[], [], 0⟩ ⟨" ", []⟩ = ⟨[], [], 0⟩ ∧
    (pyStrip (Doc.mk "x" [("chunk_hash", "x")]).page_content).data.isEmpty = false := by
  constructor
  · exact c8_theorem.1 (fun s => s) [] ⟨[], [], 0⟩ ⟨" ", []⟩ (by decide)
  · refine c8_theorem.2 (fun s => s) [] [] [⟨"x", []⟩] ⟨"x", [("chunk_hash", "x")]⟩ ?_
    decide

/-! ### Claim C9 — hash normalization congruence -/

/-- **C9**: two chunk texts that are equal after stripping leading and
trailing whitespace receive the same content hash (the digest of the
stripped text); consequently, submitting both in one batch keeps only
the first (with the hash attached to its metadata) and counts the
second as one skipped duplicate. -/
theorem c9_theorem (h : String → String) (existing session : List String) (da db : Doc)
    (heq : pyStrip da.page_content = pyStrip db.page_content)
    (hne : (pyStrip da.page_content).data.isEmpty = false)
    (hex : hashOf h da.page_content ∉ existing)
    (hse : hashOf h da.page_content ∉ session) :
    hashOf h da.page_content = hashOf h db.page_content ∧
    (filterDocs h existing session [da, db]).uniqueDocs = [attachHash h da] ∧
    (filterDocs h existing session [da, db]).skipped = 1 := by
  have hhash : hashOf h da.page_content = hashOf h db.page_content := by
    rw [hashOf, hashOf, heq]
  have hne' : ¬(pyStrip da.page_content).data.isEmpty = true := by simp [hne]
  have hne'' : ¬(pyStrip db.page_content).data.isEmpty = true := by
    rw [← heq]; simp [hne]
  have step1 : filterStep h existing ⟨session, [], 0⟩ da
      = ⟨hashOf h da.page_content :: session, [attachHash h da], 0⟩ := by
    rw [filterStep, if_neg hne']
    show (if (session.contains (hashOf h da.page_content)
        || existing.contains (hashOf h da.page_content)) = true then _ else _) = _
    rw [contains_eq_false_of_not_mem hse, contains_eq_false_of_not_mem hex]
    rfl
  have step2 : filterStep h existing
      ⟨hashOf h da.page_content :: session, [attachHash h da], 0⟩ db
      = ⟨hashOf h da.page_content :: session, [attachHash h da], 1⟩ := by
    rw [filterStep, if_neg hne'']
    have hcont : (hashOf h da.page_content :: session).contains
        (hashOf h db.page_content) = true :=
      contains_eq_true_of_mem (by rw [← hhash]; exact List.mem_cons_self _ _)
    show (if ((hashOf h da.page_content :: session).contains (hashOf h db.page_content)
        || existing.contains (hashOf h db.page_content)) = true then _ else _) = _
    rw [hcont, Bool.true_or, if_pos rfl]
  have hrun : filterDocs h existing session [da, db]
      = ⟨hashOf h da.page_content :: session, [attachHash h da], 1⟩ := by
    rw [filterDocs, List.foldl_cons, List.foldl_cons, List.foldl_nil, step1, step2]
  exact ⟨hhash, by rw [hrun], by rw [hrun]⟩

/-- Witness for C9: `" x "` and `"x"` strip to the same text, so the
second is skipped as a duplicate of the first. -/
theorem c9_witness :
    hashOf (fun s => s) " x " = hashOf (fun s => s) "x" ∧
    (filterDocs (fun s => s) [] [] [⟨" x ", []⟩, ⟨"x", []⟩]).uniqueDocs
      = [attachHash (fun s => s) ⟨" x ", []⟩] ∧
    (filterDocs (fun s => s) [] [] [⟨" x ", []⟩, ⟨"x", []⟩]).skipped = 1 :=
  c9_theorem (fun s => s) [] [] ⟨" x ", []⟩ ⟨"x", []⟩ (by decide) (by decide)
    (by decide) (by decide)

/-! ### Claim C2 — cross-restart deduplication -/

/-- A `filterMap` whose function is `some` of `g` on every member is a
`map`. -/
theorem filterMap_eq_map_of_forall {α β : Type} (f : α → Option β) (g : α → β) :
    ∀ l : List α, (∀ x ∈ l, f x = some (g x)) → l.filterMap f = l.map g := by
  intro l
  induction l with
  | nil => intro _; rfl
  | cons a t ih =>
    intro hall
    rw [List.filterMap_cons, hall a (List.mem_cons_self a t), List.map_cons,
      ih (fun x hx => hall x (List.mem_cons_of_mem a hx))]

/-- Store invariant: every persisted entry carries the digest of its
own stripped text under `chunk_hash` and has nonempty stripped text,
and the stored digests are pairwise distinct. -/
def storeInv (h : String → String) (entries : List Entry) : Prop :=
  (∀ e ∈ entries,
      metaLookup e.metadata "chunk_hash" = some (h (pyStrip e.text)) ∧
      (pyStrip e.text).data.isEmpty = false) ∧
  (entries.map (fun e => h (pyStrip e.text))).Nodup

/-- When the digest never returns the empty string and the collection
is within the scan cap, the metadata scan recovers exactly the stored
digest list. -/
theorem scanHashes_complete (h : String → String)
    (hne : ∀ s0 : String, (h s0).data.isEmpty = false) (entries : List Entry)
    (hinv : storeInv h entries) (hcap : entries.length ≤ scanLimit) :
    scanHashes entries = entries.map (fun e => h (pyStrip e.text)) := by
  rw [scanHashes, List.take_of_length_le hcap]
  refine filterMap_eq_map_of_forall _ _ entries ?_
  intro e he
  simp [(hinv.1 e he).1, hne (pyStrip e.text)]

/-- The collection after one batch: the previous entries extended by
the kept documents (also in the corner case where nothing is kept and
`add_documents` is not called). -/
theorem processBatch_entries (h : String → String) (s : AppState) (docs : List Doc) :
    (processBatch h s docs).fst.entries
      = s.entries
        ++ ((filterDocs h (scanHashes s.entries) s.session docs).uniqueDocs).map
            (fun d => ⟨d.page_content, d.metadata⟩) := by
  rw [processBatch]
  by_cases hu :
      (filterDocs h (scanHashes s.entries) s.session docs).uniqueDocs.isEmpty = true
  · rw [List.isEmpty_iff] at hu
    simp [hu]
  · rw [Bool.not_eq_true] at hu
    simp [hu, addDocuments]

/-- One batch preserves the store invariant as long as the scan cap is
not yet exceeded before the batch. -/
theorem processBatch_inv (h : String → String)
    (hne : ∀ s0 : String, (h s0).data.isEmpty = false) (s : AppState) (docs : List Doc)
    (hinv : storeInv h s.entries) (hcap : s.entries.length ≤ scanLimit) :
    storeInv h (processBatch h s docs).fst.entries := by
  rw [processBatch_entries]
  obtain ⟨hm, hn, hx, _⟩ := filterDocs_inv h (scanHashes s.entries) s.session docs
  have hscan := scanHashes_complete h hne s.entries hinv hcap
  constructor
  · intro e he
    rcases List.mem_append.mp he with hold | hnew
    · exact hinv.1 e hold
    · obtain ⟨d, hd, rfl⟩ := List.mem_map.mp hnew
      exact ⟨(hm d hd).1, (hm d hd).2⟩
  · rw [List.map_append, List.map_map]
    have hcomp :
        ((filterDocs h (scanHashes s.entries) s.session docs).uniqueDocs).map
            ((fun e : Entry => h (pyStrip e.text))
              ∘ (fun d : Doc => ⟨d.page_content, d.metadata⟩))
          = ((filterDocs h (scanHashes s.entries) s.session docs).uniqueDocs).map
              (docHash h) := rfl
    rw [hcomp, List.nodup_append]
    refine ⟨hinv.2, hn, ?_⟩
    intro v hv hv'
    obtain ⟨e, he, rfl⟩ := List.mem_map.mp hv
    obtain ⟨d, hd, heq⟩ := List.mem_map.mp hv'
    have hvexist : h (pyStrip e.text) ∈ scanHashes s.entries := by
      rw [hscan]
      exact List.mem_map.mpr ⟨e, he, rfl⟩
    exact hx d hd (heq.symm ▸ hvexist)

/-- The persisted collection only ever grows along a run (batches
append, restarts keep it). -/
theorem runFrom_entries_extend (h : String → String) :
    ∀ (evs : List UploadEvent) (s : AppState),
      ∃ t, (runFrom h s evs).entries = s.entries ++ t := by
  intro evs
  induction evs with
  | nil =>
    intro s
    exact ⟨[], (List.append_nil _).symm⟩
  | cons ev rest ih =>
    intro s
    have hstep : ∃ u, (stepEvent h s ev).entries = s.entries ++ u := by
      cases ev with
      | batch docs => exact ⟨_, processBatch_entries h s docs⟩
      | restart => exact ⟨[], (List.append_nil _).symm⟩
    obtain ⟨u, hu⟩ := hstep
    obtain ⟨t, ht⟩ := ih (stepEvent h s ev)
    refine ⟨u ++ t, ?_⟩
    rw [runFrom, List.foldl_cons]
    rw [show List.foldl (stepEvent h) (stepEvent h s ev) rest
      = runFrom h (stepEvent h s ev) rest from rfl]
    rw [ht, hu, List.append_assoc]

/-- The store invariant is preserved along any run whose final
collection is within the scan cap (the collection is monotone, so every
intermediate scan is complete). -/
theorem runFrom_inv (h : String → String)
    (hne : ∀ s0 : String, (h s0).data.isEmpty = false) :
    ∀ (evs : List UploadEvent) (s : AppState), storeInv h s.entries →
      (runFrom h s evs).entries.length ≤ scanLimit →
      storeInv h (runFrom h s evs).entries := by
  intro evs
  induction evs with
  | nil => intro s hinv _; exact hinv
  | cons ev rest ih =>
    intro s hinv hcap
    rw [runFrom, List.foldl_cons] at hcap ⊢
    rw [show List.foldl (stepEvent h) (stepEvent h s ev) rest
      = runFrom h (stepEvent h s ev) rest from rfl] at hcap ⊢
    have hcapbefore : s.entries.length ≤ scanLimit := by
      obtain ⟨t, ht⟩ := runFrom_entries_extend h rest (stepEvent h s ev)
      have hstep : ∃ u, (stepEvent h s ev).entries = s.entries ++ u := by
        cases ev with
        | batch docs => exact ⟨_, processBatch_entries h s docs⟩
        | restart => exact ⟨[], (List.append_nil _).symm⟩
      obtain ⟨u, hu⟩ := hstep
      rw [ht, hu] at hcap
      simp only [List.length_append] at hcap
      omega
    have hs' : storeInv h (stepEvent h s ev).entries := by
      cases ev with
      | restart => exact hinv
      | batch docs => exact processBatch_inv h hne s docs hinv hcapbefore
    exact ih (stepEvent h s ev) hs' hcap

/-- Under the store invariant, at most one entry per stripped text is
persisted. -/
theorem storeInv_count (h : String → String) (entries : List Entry)
    (hinv : storeInv h entries) (t : String) :
    (entries.filter (fun e => pyStrip e.text == t)).length ≤ 1 := by
  have hsub : List.Sublist (entries.filter (fun e => pyStrip e.text == t)) entries :=
    List.filter_sublist entries
  have hnodup : ((entries.filter (fun e => pyStrip e.text == t)).map
      (fun e => h (pyStrip e.text))).Nodup :=
    hinv.2.sublist (hsub.map _)
  have hconst : ∀ v ∈ (entries.filter (fun e => pyStrip e.text == t)).map
      (fun e => h (pyStrip e.text)), v = h t := by
    intro v hv
    obtain ⟨e, he, rfl⟩ := List.mem_map.mp hv
    have hbeq := List.of_mem_filter he
    have hbeq2 : (pyStrip e.text == t) = true := hbeq
    rw [eq_of_beq hbeq2]
  have hrep := List.eq_replicate_of_mem hconst
  rw [hrep] at hnodup
  have hle := List.nodup_replicate.mp hnodup
  simpa using hle

/-- **C2** (amended): for every digest function whose output is never
empty (SHA-1 hex digests are 40 characters), every event history of
upload batches and process restarts, *provided the final collection
holds at most `100000` entries* (the `limit=100000` cap of the metadata
scan, so every reseeding scan recovers all stored hashes), and every
normalized text, at most one stored entry has that stripped text — in
particular inserting the same exact text twice, in one run or across a
restart, stores it at most once. -/
theorem c2_theorem (h : String → String)
    (hne : ∀ s0 : String, (h s0).data.isEmpty = false) (evs : List UploadEvent)
    (hcap : (runEvents h evs).entries.length ≤ scanLimit) (t : String) :
    ((runEvents h evs).entries.filter (fun e => pyStrip e.text == t)).length ≤ 1 := by
  refine storeInv_count h _ ?_ t
  refine runFrom_inv h hne evs initAppState ?_ hcap
  exact ⟨fun e he => absurd he (List.not_mem_nil e), List.nodup_nil⟩

/-- Witness for C2: uploading `"x"`, restarting, and uploading `"x"`
again leaves at most one matching entry. -/
theorem c2_witness :
    ((runEvents (fun s => String.append "#" s)
        [UploadEvent.batch [⟨"x", []⟩], UploadEvent.restart,
          UploadEvent.batch [⟨"x", []⟩]]).entries.filter
      (fun e => pyStrip e.text == "x")).length ≤ 1 :=
  c2_theorem (fun s => String.append "#" s)
    (by intro s0; cases s0; rfl)
    [UploadEvent.batch [⟨"x", []⟩], UploadEvent.restart, UploadEvent.batch [⟨"x", []⟩]]
    (by decide) "x"

/-! ### C2 counterexample: the scan cap loses hashes beyond 100000 entries -/

/-- The string of `n` letters `a`. -/
def aStr (n : Nat) : String := String.mk (List.replicate n 'a')

/-- The `i`-th counterexample chunk: `i + 1` letters `a` (all pairwise
distinct, none empty). -/
def docA (i : Nat) : Doc := ⟨aStr (i + 1), []⟩

/-- The entry such a chunk produces once filtered and stored. -/
def entA (i : Nat) : Entry := ⟨aStr (i + 1), [("chunk_hash", aStr (i + 1))]⟩

/-- Counterexample history: upload `100001` pairwise-distinct chunks,
restart the process, then re-upload the chunk whose stored copy lies
beyond the metadata-scan cap. -/
def evsCex : List UploadEvent :=
  [UploadEvent.batch ((List.range (scanLimit + 1)).map docA), UploadEvent.restart,
    UploadEvent.batch [docA scanLimit]]

/-- `dropWhile` on a list without matching characters is the identity. -/
theorem dropWhile_eq_self_of_none (p : Char → Bool) :
    ∀ l : List Char, (∀ c ∈ l, p c = false) → l.dropWhile p = l := by
  intro l hall
  cases l with
  | nil => rfl
  | cons c t =>
    rw [List.dropWhile_cons, hall c (List.mem_cons_self c t)]
    simp

/-- Stripping a string without whitespace characters is the identity. -/
theorem stripChars_eq_self (l : List Char) (hall : ∀ c ∈ l, isPyWhitespace c = false) :
    stripChars l = l := by
  rw [stripChars, dropWhile_eq_self_of_none _ l hall,
    dropWhile_eq_self_of_none _ l.reverse
      (fun c hc => hall c (List.mem_reverse.mp hc)),
    List.reverse_reverse]

/-- `aStr n` strips to itself. -/
theorem pyStrip_aStr (n : Nat) : pyStrip (aStr n) = aStr n := by
  rw [pyStrip, aStr]
  rw [show (String.mk (List.replicate n 'a')).data = List.replicate n 'a' from rfl]
  rw [stripChars_eq_self (List.replicate n 'a')
    (fun c hc => by rw [List.eq_of_mem_replicate hc]; rfl)]

/-- `aStr (n+1)` is nonempty. -/
theorem aStr_succ_ne_empty (n : Nat) : (aStr (n + 1)).data.isEmpty = false := by
  rw [aStr, show (String.mk (List.replicate (n + 1) 'a')).data
    = List.replicate (n + 1) 'a' from rfl, List.replicate_succ]
  rfl

/-- `aStr` is injective. -/
theorem aStr_inj : Function.Injective aStr := by
  intro n m hnm
  have hdata := congrArg (fun s : String => s.data.length) hnm
  simpa [aStr] using hdata

/-- Under the identity digest, the hash of `docA i` is `aStr (i+1)`. -/
theorem docHash_docA (i : Nat) : docHash (fun s => s) (docA i) = aStr (i + 1) := by
  rw [docHash, hashOf, docA]
  exact pyStrip_aStr (i + 1)

/-- Attaching the identity-digest hash to `docA i`. -/
theorem attachHash_docA (i : Nat) :
    attachHash (fun s => s) (docA i) = ⟨aStr (i + 1), [("chunk_hash", aStr (i + 1))]⟩ := by
  rw [attachHash, docA]
  show Doc.mk (aStr (i + 1)) (metaInsert [] "chunk_hash" (hashOf (fun s => s) (aStr (i + 1)))) = _
  rw [show hashOf (fun s => s) (aStr (i + 1)) = pyStrip (aStr (i + 1)) from rfl,
    pyStrip_aStr]
  rfl

/-- A batch of fresh, pairwise-distinct, nonempty chunks is kept in
full by the filter. -/
theorem filterFold_all_fresh (h : String → String) (existing : List String) :
    ∀ (docs : List Doc) (session : List String) (uacc : List Doc) (k : Nat),
      (∀ d ∈ docs, (pyStrip d.page_content).data.isEmpty = false) →
      (docs.map (docHash h)).Nodup →
      (∀ d ∈ docs, docHash h d ∉ existing) →
      (∀ d ∈ docs, docHash h d ∉ session) →
      List.foldl (filterStep h existing) ⟨session, uacc, k⟩ docs
        = ⟨(docs.map (docHash h)).reverse ++ session,
            uacc ++ docs.map (attachHash h), k⟩ := by
  intro docs
  induction docs with
  | nil =>
    intro session uacc k _ _ _ _
    simp
  | cons d ds ih =>
    intro session uacc k hemp hnd hex hses
    rw [List.foldl_cons]
    have hemp' : ¬(pyStrip d.page_content).data.isEmpty = true := by
      simp [hemp d (List.mem_cons_self d ds)]
    have hstep : filterStep h existing ⟨session, uacc, k⟩ d
        = ⟨docHash h d :: session, uacc ++ [attachHash h d], k⟩ := by
      have hses0 : hashOf h d.page_content ∉ session := hses d (List.mem_cons_self d ds)
      have hex0 : hashOf h d.page_content ∉ existing := hex d (List.mem_cons_self d ds)
      rw [filterStep, if_neg hemp']
      show (if (session.contains (hashOf h d.page_content)
          || existing.contains (hashOf h d.page_content)) = true then _ else _) = _
      rw [contains_eq_false_of_not_mem hses0, contains_eq_false_of_not_mem hex0]
      rfl
    rw [hstep]
    rw [List.map_cons] at hnd
    obtain ⟨hdnot, hndtail⟩ := List.nodup_cons.mp hnd
    have hses' : ∀ x ∈ ds, docHash h x ∉ docHash h d :: session := by
      intro x hx
      rw [List.mem_cons, not_or]
      constructor
      · intro heq
        exact hdnot (heq ▸ List.mem_map.mpr ⟨x, hx, rfl⟩)
      · exact hses x (List.mem_cons_of_mem d hx)
    rw [ih (docHash h d :: session) (uacc ++ [attachHash h d]) k
      (fun x hx => hemp x (List.mem_cons_of_mem d hx)) hndtail
      (fun x hx => hex x (List.mem_cons_of_mem d hx)) hses']
    rw [List.map_cons, List.reverse_cons, List.append_assoc, List.singleton_append,
      List.map_cons]
    rw [List.append_assoc, List.singleton_append]

/-- The metadata scan over the 100001-entry counterexample collection
recovers only the first `100000` hashes. -/
theorem scanHashes_entsCex :
    scanHashes ((List.range (scanLimit + 1)).map entA)
      = (List.range scanLimit).map (fun i => aStr (i + 1)) := by
  rw [scanHashes]
  have htake : ((List.range (scanLimit + 1)).map entA).take scanLimit
      = (List.range scanLimit).map entA := by
    rw [← List.map_take, List.take_range, Nat.min_eq_left (Nat.le_succ scanLimit)]
  rw [htake]
  have hstep : ((List.range scanLimit).map entA).filterMap (fun e =>
      match metaLookup e.metadata "chunk_hash" with
      | some hv => if hv.data.isEmpty then none else some hv
      | none => none) = ((List.range scanLimit).map entA).map Entry.text := by
    refine filterMap_eq_map_of_forall _ _ _ ?_
    intro x hx
    obtain ⟨i, _, rfl⟩ := List.mem_map.mp hx
    show (match metaLookup (entA i).metadata "chunk_hash" with
      | some hv => if hv.data.isEmpty then none else some hv
      | none => none) = some (entA i).text
    rw [show metaLookup (entA i).metadata "chunk_hash" = some (aStr (i + 1)) by
      simp [entA, metaLookup, List.lookup]]
    rw [show (entA i).text = aStr (i + 1) from rfl]
    show (if (aStr (i + 1)).data.isEmpty then none else some (aStr (i + 1)))
      = some (aStr (i + 1))
    rw [aStr_succ_ne_empty i]
    rfl
  rw [hstep, List.map_map]
  exact List.map_congr_left (fun i _ => rfl)

/-- State after the initial 100001-chunk batch and the restart: empty
session set, all 100001 entries persisted. -/
theorem state2_eq :
    runFrom (fun s => s) initAppState
      [UploadEvent.batch ((List.range (scanLimit + 1)).map docA), UploadEvent.restart]
      = ⟨[], (List.range (scanLimit + 1)).map entA⟩ := by
  have hfilter : filterDocs (fun s => s) [] [] ((List.range (scanLimit + 1)).map docA)
      = ⟨(((List.range (scanLimit + 1)).map docA).map (docHash (fun s => s))).reverse ++ [],
          [] ++ ((List.range (scanLimit + 1)).map docA).map (attachHash (fun s => s)), 0⟩ := by
    rw [filterDocs]
    refine filterFold_all_fresh (fun s => s) [] _ [] [] 0 ?_ ?_ ?_ ?_
    · intro d hd
      obtain ⟨i, _, rfl⟩ := List.mem_map.mp hd
      rw [show (docA i).page_content = aStr (i + 1) from rfl, pyStrip_aStr]
      exact aStr_succ_ne_empty i
    · rw [List.map_map]
      have hfun : (docHash (fun s => s) ∘ docA) = fun i => aStr (i + 1) :=
        funext (fun i => docHash_docA i)
      rw [hfun]
      refine (List.nodup_range (scanLimit + 1)).map ?_
      intro a b hab
      have := aStr_inj hab
      omega
    · intro d _
      exact List.not_mem_nil _
    · intro d _
      exact List.not_mem_nil _
  have hentries1 : (stepEvent (fun s => s) initAppState
      (UploadEvent.batch ((List.range (scanLimit + 1)).map docA))).entries
      = (List.range (scanLimit + 1)).map entA := by
    rw [show stepEvent (fun s => s) initAppState
        (UploadEvent.batch ((List.range (scanLimit + 1)).map docA))
      = (processBatch (fun s => s) initAppState
          ((List.range (scanLimit + 1)).map docA)).fst from rfl]
    rw [processBatch_entries]
    rw [show scanHashes initAppState.entries = [] from rfl]
    rw [show initAppState.session = [] from rfl]
    rw [hfilter]
    rw [show initAppState.entries = [] from rfl]
    rw [List.nil_append, List.nil_append, List.map_map, List.map_map]
    refine List.map_congr_left ?_
    intro i _
    show (⟨(attachHash (fun s => s) (docA i)).page_content,
        (attachHash (fun s => s) (docA i)).metadata⟩ : Entry) = entA i
    rw [attachHash_docA i]
    rfl
  show stepEvent (fun s => s) (stepEvent (fun s => s) initAppState
    (UploadEvent.batch ((List.range (scanLimit + 1)).map docA))) UploadEvent.restart = _
  rw [show ∀ s : AppState, stepEvent (fun sx => sx) s UploadEvent.restart
    = ⟨[], s.entries⟩ from fun s => rfl]
  rw [hentries1]

/-- The re-uploaded chunk's hash is missed by the capped scan. -/
theorem aStr_not_in_scanned :
    aStr (scanLimit + 1) ∉ (List.range scanLimit).map (fun i => aStr (i + 1)) := by
  intro hmem
  obtain ⟨i, hir, heq⟩ := List.mem_map.mp hmem
  have hinj := aStr_inj heq
  have hlt := List.mem_range.mp hir
  omega

/-- **C2** (counterexample): after uploading 100001 pairwise-distinct
chunks, restarting (which clears the in-memory seen-set), and
re-uploading the chunk whose stored copy lies beyond the
`limit=100000` metadata-scan cap, the collection holds **two** entries
with the same normalized text — the reseeding scan recovers only the
first 100000 content hashes, so the claimed at-most-one invariant
fails. -/
theorem c2_counterexample :
    2 ≤ ((runEvents (fun s => s) evsCex).entries.filter
      (fun e => pyStrip e.text == aStr (scanLimit + 1))).length := by
  have h12 : runEvents (fun s => s) evsCex
      = stepEvent (fun s => s)
          (runFrom (fun s => s) initAppState
            [UploadEvent.batch ((List.range (scanLimit + 1)).map docA),
              UploadEvent.restart])
          (UploadEvent.batch [docA scanLimit]) := rfl
  rw [h12, state2_eq]
  have hfilter3 : filterDocs (fun s => s)
      (scanHashes ((List.range (scanLimit + 1)).map entA)) [] [docA scanLimit]
      = ⟨([docHash (fun s => s) (docA scanLimit)]).reverse ++ [],
          [] ++ [attachHash (fun s => s) (docA scanLimit)], 0⟩ := by
    rw [filterDocs, scanHashes_entsCex]
    have hall := filterFold_all_fresh (fun s => s)
      ((List.range scanLimit).map (fun i => aStr (i + 1))) [docA scanLimit] [] [] 0
      (by
        intro d hd
        rcases List.mem_singleton.mp hd with rfl
        rw [show (docA scanLimit).page_content = aStr (scanLimit + 1) from rfl,
          pyStrip_aStr]
        exact aStr_succ_ne_empty scanLimit)
      (by
        rw [List.map_singleton]
        exact List.nodup_singleton _)
      (by
        intro d hd
        rcases List.mem_singleton.mp hd with rfl
        rw [docHash_docA]
        exact aStr_not_in_scanned)
      (by
        intro d hd
        exact List.not_mem_nil _)
    rw [hall, List.map_singleton, List.map_singleton]
  have hgen : ∀ es : List Entry, (stepEvent (fun s => s) (⟨[], es⟩ : AppState)
      (UploadEvent.batch [docA scanLimit])).entries
      = es ++ ((filterDocs (fun s => s) (scanHashes es) [] [docA scanLimit]).uniqueDocs).map
          (fun d : Doc => (⟨d.page_content, d.metadata⟩ : Entry)) :=
    fun es => processBatch_entries (fun s => s) ⟨[], es⟩ [docA scanLimit]
  have hA := hgen ((List.range (scanLimit + 1)).map entA)
  rw [hfilter3] at hA
  have hB : (stepEvent (fun s => s)
      (⟨[], (List.range (scanLimit + 1)).map entA⟩ : AppState)
      (UploadEvent.batch [docA scanLimit])).entries
      = (List.range (scanLimit + 1)).map entA
        ++ ([attachHash (fun s => s) (docA scanLimit)]).map
          (fun d : Doc => (⟨d.page_content, d.metadata⟩ : Entry)) := hA
  have hC : ([attachHash (fun s => s) (docA scanLimit)]).map
      (fun d : Doc => (⟨d.page_content, d.metadata⟩ : Entry)) = [entA scanLimit] := by
    rw [List.map_singleton, attachHash_docA]
    rfl
  rw [hC] at hB
  rw [hB]
  have hp : (pyStrip (entA scanLimit).text == aStr (scanLimit + 1)) = true := by
    rw [show (entA scanLimit).text = aStr (scanLimit + 1) from rfl, pyStrip_aStr]
    exact beq_self_eq_true _
  have hmem : entA scanLimit ∈ (List.range (scanLimit + 1)).map entA :=
    List.mem_map.mpr ⟨scanLimit, List.mem_range.mpr (Nat.lt_succ_self scanLimit), rfl⟩
  have hsub : List.Sublist ([entA scanLimit] ++ [entA scanLimit])
      ((List.range (scanLimit + 1)).map entA ++ [entA scanLimit]) :=
    (List.singleton_sublist.mpr hmem).append (List.Sublist.refl _)
  have hfsub := hsub.filter (fun e => pyStrip e.text == aStr (scanLimit + 1))
  have hfilter2 : List.filter (fun e => pyStrip e.text == aStr (scanLimit + 1))
      ([entA scanLimit] ++ [entA scanLimit]) = [entA scanLimit, entA scanLimit] := by
    simp only [List.singleton_append, List.filter_cons, List.filter_nil]
    rw [hp]
    rfl
  rw [hfilter2] at hfsub
  have hlen := hfsub.length_le
  exact hlen
